import Mathlib

/-!
Verification of the Shadow-Dns backend (`src/main.py`): a shallow embedding of
the domain normalizer, the SQLite-backed mapping store, and the route-level
input checks, together with theorems settling the specification's claims.

Strings are modelled by Lean `String` (a wrapper around `List Char`); the
normalizer pipeline is expressed on `List Char` and lifted.  The SQLite table
`mappings (domain TEXT PRIMARY KEY, redirect TEXT)` is modelled as an
association list `List (String × Option String)`; `ORDER BY domain` is
insertion sort by the key.
-/

namespace ShadowDns

/-- Whitespace test used by Python's `str.strip()`, restricted to the ASCII
whitespace characters (space, tab, newline, carriage return, vertical tab,
form feed); the repository never feeds non-ASCII whitespace to `strip`. -/
def pyIsSpace (c : Char) : Bool :=
  c = ' ' || c = '\t' || c = '\n' || c = '\r' || c = '\x0b' || c = '\x0c'

/-- Python `str.strip()`: drop leading and trailing whitespace. -/
def pyStrip (l : List Char) : List Char :=
  ((l.dropWhile pyIsSpace).reverse.dropWhile pyIsSpace).reverse

/-- Python `str.removeprefix(p)`: drop `p` from the front when it is a
prefix, otherwise return the string unchanged. -/
def dropPre (p l : List Char) : List Char :=
  if p.isPrefixOf l then l.drop p.length else l

/-- Python `s.split("/")[0]`: the segment before the first `'/'`
(the whole string when no `'/'` occurs). -/
def firstSeg (l : List Char) : List Char :=
  l.takeWhile (fun c => c != '/')

/-- Function `normalize_domain` from `src/main.py` line 75-76, on character lists:
`domain.strip().lower().removeprefix("http://").removeprefix("https://")
.removeprefix("www.").split("/")[0]`. -/
def normList (l : List Char) : List Char :=
  firstSeg (dropPre "www.".data (dropPre "https://".data (dropPre "http://".data
    ((pyStrip l).map Char.toLower))))

/-- Function `normalize_domain` from `src/main.py`, lifted to `String`. -/
def normalize_domain (s : String) : String :=
  ⟨normList s.data⟩

/-- The `mappings` table: rows `(domain, redirect)` with `domain` the key. -/
abbrev DB := List (String × Option String)

/-- Query `SELECT redirect FROM mappings WHERE domain = d` — `none` when no row
exists, `some r` when a row with redirect `r` (itself possibly NULL) exists. -/
def getRow : DB → String → Option (Option String)
  | [], _ => none
  | (k, r) :: rest, d => if k = d then some r else getRow rest d

/-- Statement `INSERT INTO mappings(domain, redirect) VALUES(d, r) ON CONFLICT(domain)
DO UPDATE SET redirect=excluded.redirect` — replace the redirect of the
existing row for `d`, or add a new row. -/
def putRow : DB → String → Option String → DB
  | [], d, r => [(d, r)]
  | (k, v) :: rest, d, r => if k = d then (d, r) :: rest else (k, v) :: putRow rest d r

/-- Statement `DELETE FROM mappings WHERE domain = d`. -/
def delRow : DB → String → DB
  | [], _ => []
  | (k, v) :: rest, d => if k = d then delRow rest d else (k, v) :: delRow rest d

/-- Whether a row keyed `d` exists (`cur.rowcount` of the DELETE, as a Bool). -/
def hasRow (db : DB) (d : String) : Bool :=
  (getRow db d).isSome

/-- Function `get_redirect_for` from `src/main.py` line 78-85: normalize, point lookup,
`row[0] if row else None`. -/
def get_redirect_for (db : DB) (domain : String) : Option String :=
  match getRow db (normalize_domain domain) with
  | some r => r
  | none => none

/-- Function `set_mapping` from `src/main.py` line 87-93: normalize, atomic upsert. -/
def set_mapping (db : DB) (domain : String) (redirect : Option String) : DB :=
  putRow db (normalize_domain domain) redirect

/-- Function `remove_mapping` from `src/main.py` line 95-103: normalize, delete,
return `bool(cur.rowcount)` together with the new table state. -/
def remove_mapping (db : DB) (domain : String) : Bool × DB :=
  (hasRow db (normalize_domain domain), delRow db (normalize_domain domain))

/-- Row order of `SELECT ... ORDER BY domain`: ascending on the key. -/
def keyLe (p q : String × Option String) : Prop :=
  p.1 ≤ q.1

instance : DecidableRel keyLe := fun p q =>
  inferInstanceAs (Decidable ¬(q.1 < p.1))

instance : IsTotal (String × Option String) keyLe :=
  ⟨fun a b => le_total a.1 b.1⟩

instance : IsTrans (String × Option String) keyLe :=
  ⟨fun _ _ _ h1 h2 => le_trans h1 h2⟩

/-- Function `list_mappings` from `src/main.py` line 105-111:
`SELECT domain, redirect FROM mappings ORDER BY domain`. -/
def list_mappings (db : DB) : DB :=
  List.insertionSort keyLe db

/-- The `/check` route (`src/main.py` line 122-132): reject a falsy (empty)
domain with HTTP 400, otherwise return the looked-up redirect. -/
def check (db : DB) (domain : String) : Except String (Option String) :=
  if domain = "" then .error "missing domain"
  else .ok (get_redirect_for db domain)

/-- The `/register` route (`src/main.py` line 134-146): reject a falsy (empty)
domain with HTTP 400, otherwise upsert. -/
def register (db : DB) (domain : String) (redirect : Option String) :
    Except String DB :=
  if domain = "" then .error "missing domain"
  else .ok (set_mapping db domain redirect)

/-- The `/unregister` route (`src/main.py` line 155-165): reject a falsy
(empty) domain with HTTP 400; HTTP 404 when no row was deleted. -/
def unregister (db : DB) (domain : String) : Except String DB :=
  if domain = "" then .error "missing domain"
  else
    match remove_mapping db domain with
    | (true, db2) => .ok db2
    | (false, _) => .error "mapping not found"

/-- The spec's step 3 in its own words, for comparison with the source:
strip a single leading scheme, `"http://"` if present, else `"https://"`
if present — at most one removal. -/
def dropSchemeOnce (l : List Char) : List Char :=
  if "http://".data.isPrefixOf l then l.drop 7
  else if "https://".data.isPrefixOf l then l.drop 8
  else l

/-- The normalizer as the spec words it: like `normList` but with the
single-removal scheme stripping of `dropSchemeOnce`. -/
def normSpecOneStrip (s : String) : String :=
  ⟨firstSeg (dropPre "www.".data (dropSchemeOnce ((pyStrip s.data).map Char.toLower)))⟩

/-- Store states reachable from the empty table by the two mutating store
operations. -/
inductive Reachable : DB → Prop
  | empty : Reachable []
  | upsert (db d r) : Reachable db → Reachable (set_mapping db d r)
  | delete (db d) : Reachable db → Reachable (remove_mapping db d).2

/-! ### Helper lemmas about the normalizer -/

theorem toLower_toLower (c : Char) :
    Char.toLower (Char.toLower c) = Char.toLower c := by
  by_cases h : c.toNat ≥ 65 ∧ c.toNat ≤ 90
  · have e : Char.toLower c = Char.ofNat (c.toNat + 32) := by
      show (if c.toNat ≥ 65 ∧ c.toNat ≤ 90 then Char.ofNat (c.toNat + 32) else c) =
        Char.ofNat (c.toNat + 32)
      exact if_pos h
    rw [e]
    obtain ⟨ha, hb⟩ := h
    revert ha hb
    generalize c.toNat = n
    intro ha hb
    interval_cases n <;> decide
  · have e : Char.toLower c = c := by
      show (if c.toNat ≥ 65 ∧ c.toNat ≤ 90 then Char.ofNat (c.toNat + 32) else c) = c
      exact if_neg h
    rw [e]
    exact e

theorem dropPre_sublist (p l : List Char) : List.Sublist (dropPre p l) l := by
  unfold dropPre
  split
  · exact List.drop_sublist _ _
  · exact List.Sublist.refl _

theorem normList_sublist (l : List Char) :
    List.Sublist (normList l) ((pyStrip l).map Char.toLower) := by
  unfold normList firstSeg
  exact (List.takeWhile_sublist _).trans
    ((dropPre_sublist _ _).trans ((dropPre_sublist _ _).trans (dropPre_sublist _ _)))

theorem mem_normList_toLower {l : List Char} {c : Char} (h : c ∈ normList l) :
    Char.toLower c = c := by
  have h2 : c ∈ (pyStrip l).map Char.toLower := (normList_sublist l).subset h
  obtain ⟨a, _, ha⟩ := List.mem_map.mp h2
  rw [← ha, toLower_toLower]

theorem map_toLower_normList (l : List Char) :
    (normList l).map Char.toLower = normList l := by
  have h : ∀ a ∈ normList l, Char.toLower a = id a := fun a ha => mem_normList_toLower ha
  rw [List.map_congr_left h, List.map_id]

theorem no_slash_normList (l : List Char) : ∀ c ∈ normList l, (c != '/') = true := by
  intro c hc
  unfold normList firstSeg at hc
  have h2 := List.mem_takeWhile_imp hc
  exact h2

theorem isPre_iff (p l : List Char) : p.isPrefixOf l = true ↔ ∃ t, p ++ t = l := by
  induction p generalizing l with
  | nil => simp [List.isPrefixOf]
  | cons a as ih =>
    cases l with
    | nil => simp [List.isPrefixOf]
    | cons b bs =>
      simp only [List.isPrefixOf, Bool.and_eq_true, beq_iff_eq, ih, List.cons_append,
        List.cons.injEq]
      constructor
      · rintro ⟨rfl, t, rfl⟩
        exact ⟨t, rfl, rfl⟩
      · rintro ⟨t, rfl, rfl⟩
        exact ⟨rfl, t, rfl⟩

theorem not_isPre_of_no_slash {p l : List Char} (hp : '/' ∈ p)
    (hl : ∀ c ∈ l, (c != '/') = true) : p.isPrefixOf l = false := by
  cases hb : p.isPrefixOf l
  · rfl
  · obtain ⟨t, rfl⟩ := (isPre_iff p l).mp hb
    have := hl '/' (List.mem_append_left t hp)
    simp at this

theorem dropPre_eq_self {p l : List Char} (h : p.isPrefixOf l = false) :
    dropPre p l = l := by
  unfold dropPre
  simp [h]

theorem firstSeg_eq_self {l : List Char} (h : ∀ c ∈ l, (c != '/') = true) :
    firstSeg l = l := by
  unfold firstSeg
  exact List.takeWhile_eq_self_iff.mpr h

theorem normList_fix {l : List Char}
    (h1 : pyStrip l = l)
    (h2 : "www.".data.isPrefixOf l = false)
    (h3 : ∀ c ∈ l, (c != '/') = true)
    (h4 : l.map Char.toLower = l) :
    normList l = l := by
  have hhttp : ("http://".data).isPrefixOf l = false :=
    not_isPre_of_no_slash (by decide) h3
  have hhttps : ("https://".data).isPrefixOf l = false :=
    not_isPre_of_no_slash (by decide) h3
  unfold normList
  rw [h1, h4, dropPre_eq_self hhttp, dropPre_eq_self hhttps, dropPre_eq_self h2]
  exact firstSeg_eq_self h3

/-! ### Helper lemmas about the store -/

theorem getRow_putRow_self (db : DB) (k : String) (r : Option String) :
    getRow (putRow db k r) k = some r := by
  induction db with
  | nil => simp [putRow, getRow]
  | cons p rest ih =>
    obtain ⟨k0, v⟩ := p
    by_cases h : k0 = k
    · simp [putRow, h, getRow]
    · simp [putRow, h, getRow, ih]

theorem putRow_putRow (db : DB) (k : String) (r1 r2 : Option String) :
    putRow (putRow db k r1) k r2 = putRow db k r2 := by
  induction db with
  | nil => simp [putRow]
  | cons p rest ih =>
    obtain ⟨k0, v⟩ := p
    by_cases h : k0 = k
    · simp [putRow, h]
    · simp [putRow, h, ih]

theorem getRow_delRow_self (db : DB) (k : String) :
    getRow (delRow db k) k = none := by
  induction db with
  | nil => simp [delRow, getRow]
  | cons p rest ih =>
    obtain ⟨k0, v⟩ := p
    by_cases h : k0 = k
    · simp [delRow, h, ih]
    · simp [delRow, h, getRow, ih]

theorem getRow_delRow_ne (db : DB) (k k' : String) (h : k' ≠ k) :
    getRow (delRow db k) k' = getRow db k' := by
  induction db with
  | nil => simp [delRow]
  | cons p rest ih =>
    obtain ⟨k0, v⟩ := p
    by_cases h0 : k0 = k
    · subst h0
      simp [delRow, getRow, ih, Ne.symm h]
    · simp [delRow, h0, getRow, ih]

theorem delRow_eq_self (db : DB) (k : String) (h : getRow db k = none) :
    delRow db k = db := by
  induction db with
  | nil => simp [delRow]
  | cons p rest ih =>
    obtain ⟨k0, v⟩ := p
    by_cases h0 : k0 = k
    · subst h0
      simp [getRow] at h
    · simp [getRow, h0] at h
      simp [delRow, h0, ih h]

theorem delRow_sublist (db : DB) (k : String) : List.Sublist (delRow db k) db := by
  induction db with
  | nil => simp [delRow]
  | cons q rest ih =>
    obtain ⟨k0, v⟩ := q
    by_cases h0 : k0 = k
    · simp only [delRow, h0, if_pos rfl]
      exact ih.trans (List.sublist_cons_self _ _)
    · simp only [delRow, if_neg h0]
      exact List.Sublist.cons₂ _ ih

theorem mem_putRow {db : DB} {k : String} {r : Option String} {p : String × Option String}
    (h : p ∈ putRow db k r) : p ∈ db ∨ p = (k, r) := by
  induction db with
  | nil =>
    simp [putRow] at h
    exact Or.inr h
  | cons q rest ih =>
    obtain ⟨k0, v⟩ := q
    by_cases h0 : k0 = k
    · simp only [putRow, if_pos h0, List.mem_cons] at h
      rcases h with h | h
      · exact Or.inr h
      · exact Or.inl (List.mem_cons_of_mem _ h)
    · simp only [putRow, if_neg h0, List.mem_cons] at h
      rcases h with h | h
      · exact Or.inl (by simp [h])
      · rcases ih h with h2 | h2
        · exact Or.inl (List.mem_cons_of_mem _ h2)
        · exact Or.inr h2

theorem mem_keys_putRow {db : DB} {k k' : String} {r : Option String}
    (h : k' ∈ (putRow db k r).map Prod.fst) : k' ∈ db.map Prod.fst ∨ k' = k := by
  obtain ⟨p, hp, he⟩ := List.mem_map.mp h
  rcases mem_putRow hp with h2 | h2
  · exact Or.inl (List.mem_map.mpr ⟨p, h2, he⟩)
  · subst h2
    exact Or.inr he.symm

theorem nodup_keys_putRow (db : DB) (k : String) (r : Option String)
    (h : (db.map Prod.fst).Nodup) : ((putRow db k r).map Prod.fst).Nodup := by
  induction db with
  | nil => simp [putRow]
  | cons q rest ih =>
    obtain ⟨k0, v⟩ := q
    simp only [List.map_cons, List.nodup_cons] at h
    obtain ⟨h1, h2⟩ := h
    by_cases h0 : k0 = k
    · subst h0
      have e : putRow ((k0, v) :: rest) k0 r = (k0, r) :: rest := by
        simp [putRow]
      rw [e, List.map_cons, List.nodup_cons]
      exact ⟨h1, h2⟩
    · simp only [putRow, if_neg h0, List.map_cons, List.nodup_cons]
      constructor
      · intro hmem
        rcases mem_keys_putRow hmem with hm | hm
        · exact h1 hm
        · exact h0 hm
      · exact ih h2

/-! ### The claims -/

/-- C1: after `upsert(d, r1)` then `upsert(d, r2)`, reading back through any
alias `d'` with `normalize(d') = normalize(d)` yields `r2`; the second upsert
replaces the stored redirect (the two upserts collapse to the last one), with
normalization applied symmetrically on write and read. -/
theorem C1_upsert_replaces (db : DB) (d d' : String) (r1 r2 : Option String)
    (h : normalize_domain d' = normalize_domain d) :
    get_redirect_for (set_mapping (set_mapping db d r1) d r2) d' = r2 ∧
    set_mapping (set_mapping db d r1) d r2 = set_mapping db d r2 := by
  constructor
  · unfold get_redirect_for set_mapping
    rw [h, getRow_putRow_self]
  · unfold set_mapping
    exact putRow_putRow db _ r1 r2

/-- Witness for C1 at the spec's own example: upsert `"Example.com"` twice,
read back as `"EXAMPLE.COM"`. -/
theorem C1_upsert_replaces_witness :
    normalize_domain "EXAMPLE.COM" = normalize_domain "Example.com" ∧
    get_redirect_for (set_mapping (set_mapping [] "Example.com" none) "Example.com"
      (some "https://x")) "EXAMPLE.COM" = some "https://x" :=
  ⟨by decide,
   (C1_upsert_replaces [] "Example.com" "EXAMPLE.COM" none (some "https://x") (by decide)).1⟩

/-- C5: `get_redirect_for` returns the stored redirect when a row for the
normalized domain exists and `none` when no row exists; a miss and a hit whose
stored redirect is NULL both return `none`, so callers cannot tell them
apart through this call. -/
theorem C5_get_redirect_contract (db : DB) (d : String) :
    (getRow db (normalize_domain d) = none → get_redirect_for db d = none) ∧
    (∀ r, getRow db (normalize_domain d) = some r → get_redirect_for db d = r) := by
  constructor
  · intro h
    unfold get_redirect_for
    rw [h]
  · intro r h
    unfold get_redirect_for
    rw [h]

/-- Witness for C5: a missing row and a row with NULL redirect both read back
as `none`. -/
theorem C5_get_redirect_contract_witness :
    get_redirect_for [] "a.com" = none ∧
    get_redirect_for [("a.com", (none : Option String))] "a.com" = none :=
  ⟨(C5_get_redirect_contract [] "a.com").1 (by decide),
   (C5_get_redirect_contract [("a.com", none)] "a.com").2 none (by decide)⟩

/-- C6: `remove_mapping` returns `true` exactly when a row keyed by the
normalized domain existed; that row is removed, other rows are untouched,
and when it returns `false` the table is unchanged (a no-op, not an error). -/
theorem C6_delete_contract (db : DB) (d : String) :
    ((remove_mapping db d).1 = true ↔ getRow db (normalize_domain d) ≠ none) ∧
    getRow (remove_mapping db d).2 (normalize_domain d) = none ∧
    ((remove_mapping db d).1 = false → (remove_mapping db d).2 = db) ∧
    (∀ k, k ≠ normalize_domain d →
      getRow (remove_mapping db d).2 k = getRow db k) := by
  refine ⟨?_, ?_, ?_, ?_⟩
  · show hasRow db (normalize_domain d) = true ↔ _
    unfold hasRow
    cases hg : getRow db (normalize_domain d) <;> simp [hg]
  · exact getRow_delRow_self db _
  · intro h
    have hfalse : hasRow db (normalize_domain d) = false := h
    unfold hasRow at hfalse
    have h2 : getRow db (normalize_domain d) = none := by
      cases hg : getRow db (normalize_domain d)
      · rfl
      · rw [hg] at hfalse
        simp at hfalse
    show delRow db (normalize_domain d) = db
    exact delRow_eq_self db _ h2
  · intro k hk
    show getRow (delRow db (normalize_domain d)) k = getRow db k
    exact getRow_delRow_ne db _ k hk

/-- Witness for C6: deleting an existing row returns `true` and removes it;
deleting a never-registered domain returns `false` and leaves the table as it
was; unrelated rows survive a delete. -/
theorem C6_delete_contract_witness :
    (remove_mapping [("a.com", some "u")] "a.com").1 = true ∧
    getRow (remove_mapping [("a.com", some "u")] "a.com").2 "a.com" = none ∧
    (remove_mapping [("a.com", some "u")] "never.com").2 = [("a.com", some "u")] ∧
    getRow (remove_mapping [("b.com", some "u")] "a.com").2 "b.com" = some (some "u") := by
  refine ⟨?_, ?_, ?_, ?_⟩
  · exact (C6_delete_contract [("a.com", some "u")] "a.com").1.mpr (by decide)
  · exact (C6_delete_contract [("a.com", some "u")] "a.com").2.1
  · exact (C6_delete_contract [("a.com", some "u")] "never.com").2.2.1 (by decide)
  · rw [(C6_delete_contract [("b.com", some "u")] "a.com").2.2.2 "b.com" (by decide)]
    decide

/-- C7: `list_mappings` returns exactly the table's rows — a permutation of
them, so each row exactly once — sorted ascending by domain; upserting
`"b.com"` then `"a.com"` into the empty table lists `["a.com", "b.com"]`. -/
theorem C7_list_sorted :
    (∀ db : DB, (list_mappings db).Perm db ∧ List.Sorted keyLe (list_mappings db)) ∧
    list_mappings (set_mapping (set_mapping [] "b.com" (some "https://x")) "a.com"
      (some "https://y")) = [("a.com", some "https://y"), ("b.com", some "https://x")] := by
  constructor
  · intro db
    exact ⟨List.perm_insertionSort keyLe db, List.sorted_insertionSort keyLe db⟩
  · have hlt : ("a.com" : String) < "b.com" := String.lt_iff_toList_lt.mpr (by decide)
    have hnle : ¬ keyLe ("b.com", some "https://x") ("a.com", some "https://y") := by
      intro hle
      exact absurd hlt (not_lt.mpr hle)
    have hdb : set_mapping (set_mapping [] "b.com" (some "https://x")) "a.com"
        (some "https://y") = [("b.com", some "https://x"), ("a.com", some "https://y")] := by
      decide
    rw [hdb]
    show List.insertionSort keyLe
      [("b.com", some "https://x"), ("a.com", some "https://y")] = _
    simp only [List.insertionSort, List.orderedInsert]
    rw [if_neg hnle]

/-- C9: `normalize_domain` is a total Lean function, and empty or
whitespace-only input normalizes to the empty string. -/
theorem C9_normalize_whitespace (s : String)
    (h : ∀ c ∈ s.data, pyIsSpace c = true) :
    normalize_domain s = "" := by
  have h1 : pyStrip s.data = [] := by
    unfold pyStrip
    rw [List.dropWhile_eq_nil_iff.mpr h]
    simp
  unfold normalize_domain normList
  rw [h1]
  decide

/-- Witness for C9 at the empty string and at two spaces. -/
theorem C9_normalize_whitespace_witness :
    normalize_domain "" = "" ∧ normalize_domain "  " = "" :=
  ⟨C9_normalize_whitespace "" (by decide), C9_normalize_whitespace "  " (by decide)⟩

/-- C10: the normalized form never contains a `'/'`: the canonical key is
always the segment before the first slash, so every store key is slash-free. -/
theorem C10_normalize_no_slash (s : String) :
    (normalize_domain s).data.all (fun c => c != '/') = true := by
  rw [List.all_eq_true]
  intro c hc
  exact no_slash_normList s.data c hc

/-- C2 counterexample: the normalizer is not idempotent as claimed —
`normalize("www.www.a.com") = "www.a.com"`, and normalizing that again strips
a second `"www."`, giving `"a.com"`. -/
theorem C2_not_idempotent :
    normalize_domain "www.www.a.com" = "www.a.com" ∧
    normalize_domain (normalize_domain "www.www.a.com") = "a.com" ∧
    normalize_domain (normalize_domain "www.www.a.com") ≠
      normalize_domain "www.www.a.com" := by
  refine ⟨by decide, by decide, by decide⟩

/-- C2 (amended): `normalize` is idempotent on every input whose normalized
form carries no leading/trailing whitespace and does not itself start with
`"www."`; the other triggers cannot recur, because the normalized form is
already lowercase and never contains `'/'` (so no scheme prefix fits). -/
theorem C2_idempotent_amended (s : String)
    (h1 : pyStrip (normalize_domain s).data = (normalize_domain s).data)
    (h2 : "www.".data.isPrefixOf (normalize_domain s).data = false) :
    normalize_domain (normalize_domain s) = normalize_domain s := by
  have h3 : ∀ c ∈ (normalize_domain s).data, (c != '/') = true :=
    fun c hc => no_slash_normList s.data c hc
  have h4 : (normalize_domain s).data.map Char.toLower = (normalize_domain s).data :=
    map_toLower_normList s.data
  have hfix : normList (normalize_domain s).data = (normalize_domain s).data :=
    normList_fix h1 h2 h3 h4
  show (⟨normList (normalize_domain s).data⟩ : String) = normalize_domain s
  rw [hfix]

/-- Witness for C2's amended theorem at `"Example.com"`. -/
theorem C2_idempotent_amended_witness :
    pyStrip (normalize_domain "Example.com").data = (normalize_domain "Example.com").data ∧
    normalize_domain (normalize_domain "Example.com") = normalize_domain "Example.com" :=
  ⟨by decide, C2_idempotent_amended "Example.com" (by decide) (by decide)⟩

theorem dropPre_of_isPre {p l : List Char} (h : p.isPrefixOf l = true) :
    dropPre p l = l.drop p.length := by
  unfold dropPre
  rw [h, if_pos rfl]

theorem dropPre_scheme_eq (b : List Char)
    (h : ("http://https://".data).isPrefixOf b = false) :
    dropPre "https://".data (dropPre "http://".data b) = dropSchemeOnce b := by
  cases hb : ("http://".data).isPrefixOf b
  · rw [dropPre_eq_self hb]
    unfold dropSchemeOnce
    rw [hb]
    have e8 : ("https://".data).length = 8 := rfl
    unfold dropPre
    rw [e8]
    simp
  · obtain ⟨t, ht⟩ := (isPre_iff _ _).mp hb
    have hdrop : dropPre "http://".data b = t := by
      rw [dropPre_of_isPre hb, ← ht, List.drop_left]
    have hnp : ("https://".data).isPrefixOf t = false := by
      cases hp : ("https://".data).isPrefixOf t
      · rfl
      · exfalso
        obtain ⟨u, hu⟩ := (isPre_iff _ _).mp hp
        have e : "http://".data ++ "https://".data = "http://https://".data := by decide
        have hfull : ("http://https://".data).isPrefixOf b = true := by
          rw [isPre_iff]
          exact ⟨u, by rw [← ht, ← hu, ← List.append_assoc, e]⟩
        rw [hfull] at h
        exact absurd h (by decide)
    have hR : dropSchemeOnce b = t := by
      unfold dropSchemeOnce
      rw [hb, if_pos rfl, ← ht]
      exact List.drop_left' (by decide)
    rw [hdrop, dropPre_eq_self hnp, hR]

/-- C3 counterexample: on `"http://https://a.com"` the code removes BOTH
scheme prefixes (the two `removeprefix` calls chain), whereas an
at-most-one-removal normalizer, as the claim words it, leaves
`"https://a.com"` and then truncates at the slash, yielding `"https:"`. -/
theorem C3_double_strip :
    normalize_domain "http://https://a.com" = "a.com" ∧
    normSpecOneStrip "http://https://a.com" = "https:" ∧
    normalize_domain "http://https://a.com" ≠ normSpecOneStrip "http://https://a.com" := by
  refine ⟨by decide, by decide, by decide⟩

/-- C3 (amended): `normalize` strips `"http://"` and then, from the result,
independently strips `"https://"`; both removals happen exactly on inputs
whose stripped-lowercased form starts with `"http://https://"`. On every
other input it coincides with the spec's at-most-one-removal normalizer. -/
theorem C3_strip_amended (s : String)
    (h : ("http://https://".data).isPrefixOf ((pyStrip s.data).map Char.toLower) = false) :
    normalize_domain s = normSpecOneStrip s := by
  have hs := dropPre_scheme_eq ((pyStrip s.data).map Char.toLower) h
  show (⟨firstSeg (dropPre "www.".data (dropPre "https://".data (dropPre "http://".data
    ((pyStrip s.data).map Char.toLower))))⟩ : String) = _
  rw [hs]
  rfl

/-- Witness for C3's amended theorem at the spec's example `"https://Example.COM"`. -/
theorem C3_strip_amended_witness :
    ("http://https://".data).isPrefixOf
      ((pyStrip "https://Example.COM".data).map Char.toLower) = false ∧
    normalize_domain "https://Example.COM" = normSpecOneStrip "https://Example.COM" :=
  ⟨by decide, C3_strip_amended "https://Example.COM" (by decide)⟩

/-- C4 counterexample: stored keys are not fixed points of `normalize` —
`upsert("www.www.a.com", null)` stores the key `"www.a.com"`, and
`normalize("www.a.com") = "a.com" ≠ "www.a.com"`. -/
theorem C4_key_not_fixed_point :
    set_mapping [] "www.www.a.com" none = [("www.a.com", none)] ∧
    normalize_domain "www.a.com" ≠ "www.a.com" := by
  refine ⟨by decide, by decide⟩

/-- C4 (amended): after any sequence of upserts and deletes from the empty
table, every stored key is the normalized form of some raw input (never the
raw form itself), and keys are unique (at most one row per canonical domain).
Normalized forms need not satisfy `normalize(k) = k`, since `normalize` is
not idempotent. -/
theorem C4_store_invariant (db : DB) (h : Reachable db) :
    (db.map Prod.fst).Nodup ∧ ∀ p ∈ db, ∃ raw, p.1 = normalize_domain raw := by
  induction h with
  | empty => exact ⟨List.nodup_nil, by intro p hp; cases hp⟩
  | upsert db d r _ ih =>
    constructor
    · exact nodup_keys_putRow db (normalize_domain d) r ih.1
    · intro p hp
      rcases mem_putRow hp with h2 | h2
      · exact ih.2 p h2
      · exact ⟨d, by rw [h2]⟩
  | delete db d _ ih =>
    constructor
    · exact ((delRow_sublist db (normalize_domain d)).map Prod.fst).nodup ih.1
    · intro p hp
      exact ih.2 p ((delRow_sublist db (normalize_domain d)).subset hp)

/-- Witness for C4 at a one-upsert table. -/
theorem C4_store_invariant_witness :
    Reachable [("a.com", (none : Option String))] ∧
    (([("a.com", (none : Option String))] : DB).map Prod.fst).Nodup := by
  have h0 := Reachable.upsert [] "a.com" none Reachable.empty
  rw [show set_mapping [] "a.com" none = [("a.com", (none : Option String))] from by decide]
    at h0
  exact ⟨h0, (C4_store_invariant [("a.com", none)] h0).1⟩

/-- C8 counterexample: a whitespace-only domain is not rejected — `/check`
and `/register` with domain `" "` succeed, proceeding with the empty
normalized key, contrary to the claimed reject-at-boundary behavior. -/
theorem C8_whitespace_not_rejected :
    check [] " " = Except.ok none ∧
    register [] " " (some "https://x") = Except.ok [("", some "https://x")] ∧
    normalize_domain " " = "" := by
  refine ⟨rfl, rfl, by decide⟩

/-- C8 (amended): only the exactly-empty raw domain is rejected at the route
boundary (`if not payload.domain`); every non-empty domain — including
whitespace-only ones — proceeds to the store with its normalized key. -/
theorem C8_empty_rejected_amended (db : DB) (r : Option String) (d : String) :
    (d = "" → check db d = Except.error "missing domain" ∧
      register db d r = Except.error "missing domain" ∧
      unregister db d = Except.error "missing domain") ∧
    (d ≠ "" → check db d = Except.ok (get_redirect_for db d)) := by
  constructor
  · rintro rfl
    exact ⟨rfl, rfl, rfl⟩
  · intro h
    unfold check
    rw [if_neg h]

/-- Witness for C8's amended theorem: the empty domain errors, two spaces
pass through. -/
theorem C8_empty_rejected_amended_witness :
    check [] "" = Except.error "missing domain" ∧ check [] " " = Except.ok none :=
  ⟨((C8_empty_rejected_amended [] none "").1 rfl).1,
   (C8_empty_rejected_amended [] none " ").2 (by decide)⟩

example : normalize_domain "HTTP://WWW.Example.com/path" = "example.com" := by decide
example : normalize_domain "https://Example.COM" = "example.com" := by decide
example : normalize_domain "example.com" = "example.com" := by decide
example : normalize_domain "  a.com  " = "a.com" := by decide
example : normalize_domain "www.www.a.com" = "www.a.com" := by decide
example : normalize_domain "www.a.com" = "a.com" := by decide
example : normalize_domain "http://https://a.com" = "a.com" := by decide
example : normSpecOneStrip "http://https://a.com" = "https:" := by decide
example : normalize_domain "http:// a.com" = " a.com" := by decide

end ShadowDns
